import Mathlib

/-!
Verification of the lsm-tree storage engine (src/lsm_storage.rs, src/mem_table.rs,
src/wal.rs) via a shallow embedding.

Modelling conventions:
- Rust byte slices (`&[u8]`, `Bytes`) are `List Nat`.
- File-system paths are `List Nat`; `path_of_wal` appends the numeric id as a
  final component, mirroring `path.join(format!("{:05}.wal", id))` (injective in id).
- The file system is an association list from path to the list of WAL records
  stored in the file (a record is a key/value pair; an empty value is a tombstone).
  `OpenOptions::create_new(true)` therefore means: error if the path is present,
  otherwise add the path with empty contents.
- `crossbeam_skiplist::SkipMap` is an association list where `insert` prepends
  the new binding and `get` returns the first binding for a key, which is
  observationally the replace-on-insert map of the source.
- Fallible Rust functions (`anyhow::Result`) become `Except String`; an
  `assert!` failure (a panic that aborts the call before any state mutation)
  is modelled as an error return carrying the assertion message.
- Interior mutation through `Arc`/locks becomes explicit state passing; the
  state-mutation lock serializes freeze critical sections, so an interleaved
  execution of `try_freeze` calls is a sequence of the embedded `try_freeze`
  steps in some order.
-/

namespace LsmTree

/-- Byte strings of the Rust code. -/
abbrev Bytes := List Nat

/-- File-system paths. -/
abbrev FsPath := List Nat

/-- The file system: existing files, each with its list of WAL records. -/
abbrev FS := List (FsPath × List (Bytes × Bytes))

/-- `Wal` (src/wal.rs): a handle on an append-only file. -/
structure Wal where
  path : FsPath

/-- `Wal::create` (src/wal.rs lines 26-36): opens the file with
`create_new(true)`, so it errors iff a file already exists at `path`. -/
def Wal.create (path : FsPath) (fs : FS) : Except String (Wal × FS) :=
  match fs.lookup path with
  | some _ => .error "Failed to open wal file"
  | none => .ok (⟨path⟩, (path, []) :: fs)

/-- `Wal::put` (src/wal.rs lines 37-40): the body is `Ok(())` (marked todo in
the source), so no record is ever appended to the file. -/
def Wal.put (_w : Wal) (_key _value : Bytes) (fs : FS) : Except String FS :=
  .ok fs

/-- `Wal::recover` (src/wal.rs lines 43-55): despite its name, the body opens
the file with `create_new(true)` exactly like `Wal::create` (erroring whenever
the file exists) and never reads a record into the supplied map. -/
def Wal.recover (path : FsPath) (map : List (Bytes × Bytes)) (fs : FS) :
    Except String (Wal × List (Bytes × Bytes) × FS) :=
  match fs.lookup path with
  | some _ => .error "Failed to open wal file"
  | none => .ok (⟨path⟩, map, (path, []) :: fs)

/-- `MemTable` (src/mem_table.rs): skiplist map, optional WAL handle, id and
approximate size counter. -/
structure MemTable where
  map : List (Bytes × Bytes)
  wal : Option Wal
  id : Nat
  approximate_size : Nat

/-- `MemTable::create` (src/mem_table.rs lines 23-30). -/
def MemTable.create (id : Nat) : MemTable :=
  { map := [], wal := none, id := id, approximate_size := 0 }

/-- `MemTable::create_with_wal` (src/mem_table.rs lines 33-41). -/
def MemTable.create_with_wal (id : Nat) (path : FsPath) (fs : FS) :
    Except String (MemTable × FS) :=
  (Wal.create path fs).map fun p =>
    ({ map := [], wal := some p.1, id := id, approximate_size := 0 }, p.2)

/-- `MemTable::recover_with_wal` (src/mem_table.rs lines 44-55): starts from an
empty map, hands it to `Wal::recover`, and builds the memtable from whatever
that call returns (the source's `Wal::recover` returns it untouched). -/
def MemTable.recover_with_wal (id : Nat) (path : FsPath) (fs : FS) :
    Except String (MemTable × FS) :=
  (Wal.recover path [] fs).map fun p =>
    ({ map := p.2.1, wal := some p.1, id := id, approximate_size := 0 }, p.2.2)

/-- `MemTable::get` (src/mem_table.rs lines 58-60). -/
def MemTable.get (m : MemTable) (key : Bytes) : Option Bytes :=
  m.map.lookup key

/-- `MemTable::put` (src/mem_table.rs lines 63-73): insert the binding, grow
the approximate size by `key.len() + value.len()`, then append to the WAL if
one is attached. -/
def MemTable.put (m : MemTable) (key value : Bytes) (fs : FS) :
    Except String (MemTable × FS) :=
  let m2 : MemTable :=
    { m with
      map := (key, value) :: m.map
      approximate_size := m.approximate_size + (key.length + value.length) }
  match m.wal with
  | some w => (w.put key value fs).map fun fs2 => (m2, fs2)
  | none => .ok (m2, fs)

/-- `LeveledCompactionOptions` (src/compact/leveld.rs). -/
structure LeveledCompactionOptions where
  level_size_multiplier : Nat
  level0_file_num_compaction_trigger : Nat
  max_levels : Nat
  base_level_size_mb : Nat

/-- `SimpleLeveledCompactionOptions` (declared in src/compact.rs; the defining
file is absent from the sources, fields taken from the uses in
src/lsm_storage.rs). -/
structure SimpleLeveledCompactionOptions where
  size_ratio_percent : Nat
  level0_file_num_compaction_trigger : Nat
  max_levels : Nat

/-- `TieredCompactionOptions` (declared in src/compact.rs; the defining file is
absent from the sources and no field is used by the embedded code). -/
structure TieredCompactionOptions where

/-- `CompactionOptions` (src/compact.rs). -/
inductive CompactionOptions where
  | Leveled (o : LeveledCompactionOptions)
  | Tiered (o : TieredCompactionOptions)
  | Simple (o : SimpleLeveledCompactionOptions)
  | NoCompaction

/-- `LsmStorageOptions` (src/lsm_storage.rs lines 39-53). -/
structure LsmStorageOptions where
  block_size : Nat
  target_sst_size : Nat
  num_memttable_limit : Nat
  compaction_options : CompactionOptions
  enable_wal : Bool
  serialized : Bool

/-- `LsmStorageState` (src/lsm_storage.rs lines 20-32); the `HashMap` of SST
objects is an association list from id to bytes. -/
structure LsmStorageState where
  memtable : MemTable
  imm_memtable : List MemTable
  l0_sstable : List Nat
  levels : List (Nat × List Nat)
  sstables : List (Nat × Bytes)

/-- `LsmStorageState::create` (src/lsm_storage.rs lines 57-75). -/
def LsmStorageState.create (option : LsmStorageOptions) : LsmStorageState :=
  let levels : List (Nat × List Nat) :=
    match option.compaction_options with
    | .Leveled o => (List.range o.max_levels).map fun level => (level + 1, [])
    | .Simple o => (List.range o.max_levels).map fun level => (level + 1, [])
    | .Tiered _ => []
    | .NoCompaction => []
  { memtable := MemTable.create 0
    imm_memtable := []
    l0_sstable := []
    levels := levels
    sstables := [] }

/-- `LsmStorageInner` (src/lsm_storage.rs lines 84-101), restricted to the
fields the embedded operations read: the state snapshot, the directory path,
the atomic id counter and the options. -/
structure LsmStorageInner where
  state : LsmStorageState
  path : FsPath
  next_sst_id : Nat
  options : LsmStorageOptions

/-- `LsmStorageInner::path_of_wal_static` (src/lsm_storage.rs lines 300-302):
join the directory path with a component determined by the id. -/
def path_of_wal_static (path : FsPath) (id : Nat) : FsPath :=
  path ++ [id]

/-- `LsmStorageInner::path_of_wal` (src/lsm_storage.rs lines 304-306). -/
def LsmStorageInner.path_of_wal (s : LsmStorageInner) (id : Nat) : FsPath :=
  path_of_wal_static s.path id

/-- The `for memtable in snapshot.imm_memtable.iter()` loop of
`LsmStorageInner::get` (src/lsm_storage.rs lines 192-200), followed by the
sstable search which the source leaves as todo returning `Ok(None)`. -/
def getImmLoop : List MemTable → Bytes → Option Bytes
  | [], _ => none
  | m :: rest, key =>
    match m.get key with
    | some value => if value.isEmpty then none else some value
    | none => getImmLoop rest key

/-- `LsmStorageInner::get` (src/lsm_storage.rs lines 177-204): search the
active memtable, then the frozen memtables newest-first, translating an
empty-value tombstone to absent; the sstable search is todo and yields none. -/
def LsmStorageInner.get (s : LsmStorageInner) (key : Bytes) : Option Bytes :=
  match s.state.memtable.get key with
  | some value => if value.isEmpty then none else some value
  | none => getImmLoop s.state.imm_memtable key

/-- `LsmStorageInner::freeze_memtable_with_memtable` (src/lsm_storage.rs lines
308-321): install a new state whose active memtable is the given one, with the
old active memtable inserted at the front of the frozen list. -/
def LsmStorageInner.freeze_memtable_with_memtable (s : LsmStorageInner)
    (memtable : MemTable) : LsmStorageInner :=
  { s with
    state :=
      { s.state with
        memtable := memtable
        imm_memtable := s.state.memtable :: s.state.imm_memtable } }

/-- `LsmStorageInner::force_freeze_memtable` (src/lsm_storage.rs lines
282-298): allocate the next id (the atomic counter is incremented even if the
subsequent WAL creation fails), create a fresh (optionally WAL-backed)
memtable and freeze the current one. -/
def LsmStorageInner.force_freeze_memtable (s : LsmStorageInner) (fs : FS) :
    Except String (LsmStorageInner × FS) :=
  let memtable_id := s.next_sst_id
  let s2 : LsmStorageInner := { s with next_sst_id := s.next_sst_id + 1 }
  if s2.options.enable_wal then
    (MemTable.create_with_wal memtable_id (s2.path_of_wal memtable_id) fs).map
      fun p => (s2.freeze_memtable_with_memtable p.1, p.2)
  else
    .ok (s2.freeze_memtable_with_memtable (MemTable.create memtable_id), fs)

/-- `LsmStorageInner::try_freeze` (src/lsm_storage.rs lines 250-261): if the
estimated size reaches `target_sst_size`, take the state lock, re-check the
current active memtable's size, and freeze only if it is still over the
threshold. -/
def LsmStorageInner.try_freeze (s : LsmStorageInner) (estimated_size : Nat)
    (fs : FS) : Except String (LsmStorageInner × FS) :=
  if s.options.target_sst_size ≤ estimated_size then
    if s.options.target_sst_size ≤ s.state.memtable.approximate_size then
      s.force_freeze_memtable fs
    else
      .ok (s, fs)
  else
    .ok (s, fs)

/-- `WriteBatchRecord` (src/lsm_storage.rs lines 34-37). -/
inductive WriteBatchRecord where
  | Put (key value : Bytes)
  | Del (key : Bytes)

/-- The key a batch record writes. -/
def WriteBatchRecord.key : WriteBatchRecord → Bytes
  | .Put k _ => k
  | .Del k => k

/-- One iteration of the loop in `LsmStorageInner::write_batch`
(src/lsm_storage.rs lines 207-233): assert the key (and, for a put, the value)
non-empty, insert into the active memtable (a delete inserts the empty-value
tombstone), read the new approximate size, and run the freeze check. -/
def LsmStorageInner.write_one (s : LsmStorageInner) (record : WriteBatchRecord)
    (fs : FS) : Except String (LsmStorageInner × FS) :=
  match record with
  | .Del key =>
    if key.isEmpty then .error "key cannot be empty"
    else
      match s.state.memtable.put key [] fs with
      | .error e => .error e
      | .ok p =>
        let s2 : LsmStorageInner := { s with state := { s.state with memtable := p.1 } }
        s2.try_freeze p.1.approximate_size p.2
  | .Put key value =>
    if key.isEmpty then .error "key cannot be empty"
    else if value.isEmpty then .error "value cannot be empty"
    else
      match s.state.memtable.put key value fs with
      | .error e => .error e
      | .ok p =>
        let s2 : LsmStorageInner := { s with state := { s.state with memtable := p.1 } }
        s2.try_freeze p.1.approximate_size p.2

/-- `LsmStorageInner::write_batch` (src/lsm_storage.rs lines 206-236): apply
the records in order, each with its own freeze check. -/
def LsmStorageInner.write_batch (s : LsmStorageInner)
    (batch : List WriteBatchRecord) (fs : FS) :
    Except String (LsmStorageInner × FS) :=
  match batch with
  | [] => .ok (s, fs)
  | record :: rest =>
    match s.write_one record fs with
    | .error e => .error e
    | .ok p => p.1.write_batch rest p.2

/-- `LsmStorageInner::put` (src/lsm_storage.rs lines 240-242). -/
def LsmStorageInner.put (s : LsmStorageInner) (key value : Bytes) (fs : FS) :
    Except String (LsmStorageInner × FS) :=
  s.write_batch [.Put key value] fs

/-- `LsmStorageInner::delete` (src/lsm_storage.rs lines 246-248). -/
def LsmStorageInner.delete (s : LsmStorageInner) (key : Bytes) (fs : FS) :
    Except String (LsmStorageInner × FS) :=
  s.write_batch [.Del key] fs

/-- The state-changing engine entry points that can run between a write to a
key and a later read: client puts and deletes, and memtable freezes (the flush
and compaction workers are `todo!()` in the source and change nothing). -/
inductive Op where
  | put (key value : Bytes)
  | del (key : Bytes)
  | freeze

/-- Whether an operation writes the given key. -/
def Op.writesKey (k : Bytes) : Op → Bool
  | .put k2 _ => k2 == k
  | .del k2 => k2 == k
  | .freeze => false

/-- Run one engine operation. -/
def runOp (s : LsmStorageInner) (fs : FS) : Op → Except String (LsmStorageInner × FS)
  | .put k v => s.put k v fs
  | .del k => s.delete k fs
  | .freeze => s.force_freeze_memtable fs

/-- Run a sequence of engine operations. -/
def runOps (s : LsmStorageInner) (fs : FS) :
    List Op → Except String (LsmStorageInner × FS)
  | [] => .ok (s, fs)
  | op :: rest =>
    match runOp s fs op with
    | .error e => .error e
    | .ok p => runOps p.1 p.2 rest

/-- The interleaved execution of several `try_freeze` calls: the state lock
serializes their critical sections, so the execution is the sequential
composition of the calls in arrival order, each carrying the size estimate its
caller observed. -/
def runTryFreezes (s : LsmStorageInner) (fs : FS) :
    List Nat → Except String (LsmStorageInner × FS)
  | [] => .ok (s, fs)
  | est :: rest =>
    match s.try_freeze est fs with
    | .error e => .error e
    | .ok p => runTryFreezes p.1 p.2 rest

/-- Raw lookup across a list of memtables: value of the first memtable that
holds the key, with no tombstone translation. -/
def mtsLookup : List MemTable → Bytes → Option Bytes
  | [], _ => none
  | m :: rest, key =>
    match m.get key with
    | some v => some v
    | none => mtsLookup rest key

/-- Raw lookup across the active memtable and the frozen memtables
newest-first. -/
def LsmStorageInner.lookupRaw (s : LsmStorageInner) (key : Bytes) : Option Bytes :=
  mtsLookup (s.state.memtable :: s.state.imm_memtable) key

/-! ### Basic computation lemmas -/

/-- `MemTable::put` never fails (the only fallible step, `Wal::put`, always
returns success in the source) and has the stated pure effect. -/
theorem MemTable.put_eq (m : MemTable) (key value : Bytes) (fs : FS) :
    m.put key value fs =
      .ok ({ m with
              map := (key, value) :: m.map
              approximate_size := m.approximate_size + (key.length + value.length) },
            fs) := by
  cases m with
  | mk mp w i a => cases w <;> rfl

/-- When the re-checked size is below the threshold, `try_freeze` leaves
everything unchanged. -/
theorem try_freeze_of_small (s : LsmStorageInner) (est : Nat) (fs : FS)
    (h : s.state.memtable.approximate_size < s.options.target_sst_size) :
    s.try_freeze est fs = .ok (s, fs) := by
  unfold LsmStorageInner.try_freeze
  by_cases h1 : s.options.target_sst_size ≤ est
  · rw [if_pos h1, if_neg (by omega)]
  · rw [if_neg h1]

/-- A whole sequence of `try_freeze` calls on a small active memtable leaves
everything unchanged. -/
theorem runTryFreezes_of_small (s : LsmStorageInner) (fs : FS) (ests : List Nat)
    (h : s.state.memtable.approximate_size < s.options.target_sst_size) :
    runTryFreezes s fs ests = .ok (s, fs) := by
  induction ests with
  | nil => rfl
  | cons est rest ih =>
    simp only [runTryFreezes, try_freeze_of_small s est fs h]
    exact ih

/-- `force_freeze_memtable` succeeds whenever the WAL file it may create is
fresh, and its new state has exactly the shape of the source transition. -/
theorem force_freeze_ok (s : LsmStorageInner) (fs : FS)
    (hsafe : s.options.enable_wal = true →
      fs.lookup (s.path_of_wal s.next_sst_id) = none) :
    ∃ s2 fs2, s.force_freeze_memtable fs = .ok (s2, fs2) ∧
      s2.state.memtable.map = [] ∧
      s2.state.memtable.id = s.next_sst_id ∧
      s2.state.memtable.approximate_size = 0 ∧
      s2.state.imm_memtable = s.state.memtable :: s.state.imm_memtable ∧
      s2.state.l0_sstable = s.state.l0_sstable ∧
      s2.state.levels = s.state.levels ∧
      s2.state.sstables = s.state.sstables ∧
      s2.next_sst_id = s.next_sst_id + 1 ∧
      s2.options = s.options ∧
      s2.path = s.path := by
  unfold LsmStorageInner.force_freeze_memtable
  cases hw : s.options.enable_wal with
  | false =>
    dsimp only
    rw [hw]
    exact ⟨_, _, rfl, rfl, rfl, rfl, rfl, rfl, rfl, rfl, rfl, rfl, rfl⟩
  | true =>
    have hpath := hsafe hw
    dsimp only
    rw [hw]
    dsimp only [MemTable.create_with_wal, Wal.create, LsmStorageInner.path_of_wal,
      path_of_wal_static]
    simp only [LsmStorageInner.path_of_wal, path_of_wal_static] at hpath
    rw [hpath]
    exact ⟨_, _, rfl, rfl, rfl, rfl, rfl, rfl, rfl, rfl, rfl, rfl, rfl⟩

/-! ### `get` as tombstone translation of the raw lookup -/

/-- The frozen-memtable loop of `get` is the tombstone translation of the raw
lookup. -/
theorem getImmLoop_eq_mts (l : List MemTable) (key : Bytes) :
    getImmLoop l key =
      (mtsLookup l key).bind fun v => if v.isEmpty then none else some v := by
  induction l with
  | nil => rfl
  | cons m rest ih =>
    cases hm : m.get key with
    | some v => simp [getImmLoop, mtsLookup, hm]
    | none => simp [getImmLoop, mtsLookup, hm, ih]

/-- `get` is the tombstone translation of the raw lookup across the active and
frozen memtables. -/
theorem get_eq_lookupRaw (s : LsmStorageInner) (key : Bytes) :
    s.get key = (s.lookupRaw key).bind fun v => if v.isEmpty then none else some v := by
  unfold LsmStorageInner.get LsmStorageInner.lookupRaw
  cases hm : s.state.memtable.get key with
  | some v => simp [mtsLookup, hm]
  | none => simp [mtsLookup, hm, getImmLoop_eq_mts]

/-! ### Preservation of the raw lookup -/

/-- Raw lookup after prepending one binding to the head memtable. -/
theorem mtsLookup_cons_binding (mt2 m : MemTable) (imm : List MemTable)
    (key value k : Bytes) (hmt : mt2.map = (key, value) :: m.map) :
    mtsLookup (mt2 :: imm) k =
      if k == key then some value else mtsLookup (m :: imm) k := by
  simp only [mtsLookup, MemTable.get, hmt, List.lookup]
  cases hbe : k == key <;> simp [hbe, mtsLookup, MemTable.get]

/-- Replacing the active memtable by one that prepends a binding for a
different key leaves the raw lookup unchanged. -/
theorem lookupRaw_set_memtable (s : LsmStorageInner) (mt2 : MemTable)
    (key value k : Bytes) (hmt : mt2.map = (key, value) :: s.state.memtable.map)
    (hk : key ≠ k) :
    ({ s with state := { s.state with memtable := mt2 } } : LsmStorageInner).lookupRaw k =
      s.lookupRaw k := by
  have hbe : (k == key) = false := beq_eq_false_iff_ne.mpr (Ne.symm hk)
  unfold LsmStorageInner.lookupRaw
  dsimp only
  rw [mtsLookup_cons_binding mt2 s.state.memtable s.state.imm_memtable key value k hmt]
  simp [hbe]

/-- A freeze (an empty memtable pushed in front) preserves the raw lookup. -/
theorem force_freeze_lookupRaw (s : LsmStorageInner) (fs : FS)
    (s2 : LsmStorageInner) (fs2 : FS) (k : Bytes)
    (h : s.force_freeze_memtable fs = .ok (s2, fs2)) :
    s2.lookupRaw k = s.lookupRaw k := by
  unfold LsmStorageInner.force_freeze_memtable at h
  dsimp only at h
  cases hw : s.options.enable_wal with
  | false =>
    rw [hw] at h
    simp only [if_neg (by simp : ¬(false = true))] at h
    simp only [Except.ok.injEq, Prod.mk.injEq] at h
    obtain ⟨rfl, rfl⟩ := h
    simp [LsmStorageInner.freeze_memtable_with_memtable, LsmStorageInner.lookupRaw,
      mtsLookup, MemTable.get, MemTable.create, List.lookup]
  | true =>
    rw [hw] at h
    simp only [if_pos rfl] at h
    dsimp only [MemTable.create_with_wal, Wal.create] at h
    cases hp : List.lookup ({ s with next_sst_id := s.next_sst_id + 1 }.path_of_wal
        s.next_sst_id) fs with
    | some c =>
      rw [hp] at h
      simp [Except.map] at h
    | none =>
      rw [hp] at h
      simp only [Except.map, Except.ok.injEq, Prod.mk.injEq] at h
      obtain ⟨rfl, rfl⟩ := h
      simp [LsmStorageInner.freeze_memtable_with_memtable, LsmStorageInner.lookupRaw,
        mtsLookup, MemTable.get, List.lookup]

/-- A successful `try_freeze` preserves the raw lookup. -/
theorem try_freeze_lookupRaw (s : LsmStorageInner) (est : Nat) (fs : FS)
    (s2 : LsmStorageInner) (fs2 : FS) (k : Bytes)
    (h : s.try_freeze est fs = .ok (s2, fs2)) :
    s2.lookupRaw k = s.lookupRaw k := by
  unfold LsmStorageInner.try_freeze at h
  by_cases h1 : s.options.target_sst_size ≤ est
  · rw [if_pos h1] at h
    by_cases h2 : s.options.target_sst_size ≤ s.state.memtable.approximate_size
    · rw [if_pos h2] at h
      exact force_freeze_lookupRaw s fs s2 fs2 k h
    · rw [if_neg h2] at h
      simp only [Except.ok.injEq, Prod.mk.injEq] at h
      obtain ⟨rfl, rfl⟩ := h
      rfl
  · rw [if_neg h1] at h
    simp only [Except.ok.injEq, Prod.mk.injEq] at h
    obtain ⟨rfl, rfl⟩ := h
    rfl

/-- A one-record batch is exactly one loop iteration. -/
theorem write_batch_single (s : LsmStorageInner) (r : WriteBatchRecord) (fs : FS) :
    s.write_batch [r] fs = s.write_one r fs := by
  unfold LsmStorageInner.write_batch
  cases h : s.write_one r fs with
  | error e => rfl
  | ok p => rfl

/-- A successful loop iteration for a record on a different key preserves the
raw lookup of that key. -/
theorem write_one_lookupRaw (s : LsmStorageInner) (record : WriteBatchRecord)
    (fs : FS) (s2 : LsmStorageInner) (fs2 : FS) (k : Bytes)
    (h : s.write_one record fs = .ok (s2, fs2))
    (hk : record.key ≠ k) :
    s2.lookupRaw k = s.lookupRaw k := by
  cases record with
  | Del key =>
    simp only [WriteBatchRecord.key] at hk
    unfold LsmStorageInner.write_one at h
    cases hke : key.isEmpty with
    | true => simp [hke] at h
    | false =>
      simp only [hke, Bool.false_eq_true, if_false, MemTable.put_eq] at h
      have hpres := try_freeze_lookupRaw _ _ _ _ _ k h
      rw [hpres]
      exact lookupRaw_set_memtable s _ key [] k rfl hk
  | Put key value =>
    simp only [WriteBatchRecord.key] at hk
    unfold LsmStorageInner.write_one at h
    cases hke : key.isEmpty with
    | true => simp [hke] at h
    | false =>
      cases hve : value.isEmpty with
      | true => simp [hke, hve] at h
      | false =>
        simp only [hke, hve, Bool.false_eq_true, if_false, MemTable.put_eq] at h
        have hpres := try_freeze_lookupRaw _ _ _ _ _ k h
        rw [hpres]
        exact lookupRaw_set_memtable s _ key value k rfl hk

/-- A successful engine operation that does not write key `k` preserves the
raw lookup of `k`. -/
theorem runOp_lookupRaw (s : LsmStorageInner) (fs : FS) (op : Op)
    (s2 : LsmStorageInner) (fs2 : FS) (k : Bytes)
    (h : runOp s fs op = .ok (s2, fs2))
    (hk : Op.writesKey k op = false) :
    s2.lookupRaw k = s.lookupRaw k := by
  cases op with
  | put key v =>
    simp only [Op.writesKey] at hk
    unfold runOp LsmStorageInner.put at h
    dsimp only at h
    rw [write_batch_single] at h
    exact write_one_lookupRaw s _ fs s2 fs2 k h (beq_eq_false_iff_ne.mp hk)
  | del key =>
    simp only [Op.writesKey] at hk
    unfold runOp LsmStorageInner.delete at h
    dsimp only at h
    rw [write_batch_single] at h
    exact write_one_lookupRaw s _ fs s2 fs2 k h (beq_eq_false_iff_ne.mp hk)
  | freeze =>
    unfold runOp at h
    exact force_freeze_lookupRaw s fs s2 fs2 k h

/-- A successful run of operations none of which writes `k` preserves the raw
lookup of `k`. -/
theorem runOps_lookupRaw (ops : List Op) (s : LsmStorageInner) (fs : FS)
    (s2 : LsmStorageInner) (fs2 : FS) (k : Bytes)
    (h : runOps s fs ops = .ok (s2, fs2))
    (hk : ∀ op ∈ ops, Op.writesKey k op = false) :
    s2.lookupRaw k = s.lookupRaw k := by
  induction ops generalizing s fs with
  | nil =>
    unfold runOps at h
    simp only [Except.ok.injEq, Prod.mk.injEq] at h
    obtain ⟨rfl, rfl⟩ := h
    rfl
  | cons op rest ih =>
    unfold runOps at h
    cases hop : runOp s fs op with
    | error e => rw [hop] at h; simp at h
    | ok p =>
      rw [hop] at h
      have h1 : p.1.lookupRaw k = s.lookupRaw k :=
        runOp_lookupRaw s fs op p.1 p.2 k hop (hk op (List.mem_cons_self op rest))
      have h2 := ih p.1 p.2 h (fun o ho => hk o (List.mem_cons_of_mem _ ho))
      exact h2.trans h1

/-- A successful `put` installs the value at the head of the raw lookup, and
its arguments were necessarily non-empty. -/
theorem put_lookupRaw (s : LsmStorageInner) (fs : FS) (k v : Bytes)
    (s1 : LsmStorageInner) (fs1 : FS)
    (h : s.put k v fs = .ok (s1, fs1)) :
    s1.lookupRaw k = some v ∧ k ≠ [] ∧ v ≠ [] := by
  unfold LsmStorageInner.put at h
  rw [write_batch_single] at h
  unfold LsmStorageInner.write_one at h
  cases hke : k.isEmpty with
  | true => simp [hke] at h
  | false =>
    cases hve : v.isEmpty with
    | true => simp [hke, hve] at h
    | false =>
      simp only [hke, hve, Bool.false_eq_true, if_false, MemTable.put_eq] at h
      have hpres := try_freeze_lookupRaw _ _ _ _ _ k h
      refine ⟨?_, ?_, ?_⟩
      · rw [hpres]
        unfold LsmStorageInner.lookupRaw
        rw [mtsLookup_cons_binding _ s.state.memtable s.state.imm_memtable k v k rfl]
        simp
      · intro hnil; rw [hnil] at hke; simp at hke
      · intro hnil; rw [hnil] at hve; simp at hve

/-- A successful `delete` installs the empty-value tombstone at the head of
the raw lookup. -/
theorem delete_lookupRaw (s : LsmStorageInner) (fs : FS) (k : Bytes)
    (s1 : LsmStorageInner) (fs1 : FS)
    (h : s.delete k fs = .ok (s1, fs1)) :
    s1.lookupRaw k = some [] := by
  unfold LsmStorageInner.delete at h
  rw [write_batch_single] at h
  unfold LsmStorageInner.write_one at h
  cases hke : k.isEmpty with
  | true => simp [hke] at h
  | false =>
    simp only [hke, Bool.false_eq_true, if_false, MemTable.put_eq] at h
    have hpres := try_freeze_lookupRaw _ _ _ _ _ k h
    rw [hpres]
    unfold LsmStorageInner.lookupRaw
    rw [mtsLookup_cons_binding _ s.state.memtable s.state.imm_memtable k [] k rfl]
    simp

/-- A freshly created engine has an empty raw lookup everywhere. -/
theorem lookupRaw_create (opts : LsmStorageOptions) (dir : FsPath) (nid : Nat)
    (k : Bytes) :
    ({ state := LsmStorageState.create opts, path := dir, next_sst_id := nid,
        options := opts } : LsmStorageInner).lookupRaw k = none := rfl

/-- `try_freeze` succeeds whenever the WAL file a triggered freeze would
create is fresh (the only IO it can perform). -/
theorem try_freeze_ok (s : LsmStorageInner) (est : Nat) (fs : FS)
    (hsafe : s.options.enable_wal = true →
      fs.lookup (s.path_of_wal s.next_sst_id) = none) :
    ∃ r, s.try_freeze est fs = .ok r := by
  unfold LsmStorageInner.try_freeze
  by_cases h1 : s.options.target_sst_size ≤ est
  · rw [if_pos h1]
    by_cases h2 : s.options.target_sst_size ≤ s.state.memtable.approximate_size
    · rw [if_pos h2]
      obtain ⟨s2, fs2, heq, -, -, -, -, -, -, -, -, -, -⟩ := force_freeze_ok s fs hsafe
      exact ⟨(s2, fs2), heq⟩
    · rw [if_neg h2]
      exact ⟨(s, fs), rfl⟩
  · rw [if_neg h1]
    exact ⟨(s, fs), rfl⟩

/-! ### The claims -/

/-- C1: a `put` with an empty key or empty value fails (the check runs before
any mutation, so the caller's storage state is untouched), a `delete` with an
empty key fails likewise, and for non-empty arguments both calls succeed
(granted that the WAL file a triggered freeze would create is fresh — file
creation is the only IO a write can perform). -/
theorem put_delete_empty_validation (s : LsmStorageInner) (fs : FS) (k v : Bytes)
    (hsafe : s.options.enable_wal = true →
      fs.lookup (s.path_of_wal s.next_sst_id) = none) :
    (k = [] ∨ v = [] → ∃ msg, s.put k v fs = .error msg)
    ∧ (k = [] → ∃ msg, s.delete k fs = .error msg)
    ∧ (k ≠ [] → v ≠ [] → ∃ r, s.put k v fs = .ok r)
    ∧ (k ≠ [] → ∃ r, s.delete k fs = .ok r) := by
  refine ⟨?_, ?_, ?_, ?_⟩
  · intro hor
    unfold LsmStorageInner.put
    rw [write_batch_single]
    unfold LsmStorageInner.write_one
    rcases hor with rfl | rfl
    · exact ⟨"key cannot be empty", by simp⟩
    · cases hke : k.isEmpty with
      | true => exact ⟨"key cannot be empty", by simp [hke]⟩
      | false => exact ⟨"value cannot be empty", by simp [hke]⟩
  · intro hk
    subst hk
    unfold LsmStorageInner.delete
    rw [write_batch_single]
    unfold LsmStorageInner.write_one
    exact ⟨"key cannot be empty", by simp⟩
  · intro hk hv
    have hke : k.isEmpty = false := by
      cases k with
      | nil => exact absurd rfl hk
      | cons a as => rfl
    have hve : v.isEmpty = false := by
      cases v with
      | nil => exact absurd rfl hv
      | cons a as => rfl
    unfold LsmStorageInner.put
    rw [write_batch_single]
    unfold LsmStorageInner.write_one
    simp only [hke, hve, Bool.false_eq_true, if_false, MemTable.put_eq]
    exact try_freeze_ok _ _ _ hsafe
  · intro hk
    have hke : k.isEmpty = false := by
      cases k with
      | nil => exact absurd rfl hk
      | cons a as => rfl
    unfold LsmStorageInner.delete
    rw [write_batch_single]
    unfold LsmStorageInner.write_one
    simp only [hke, Bool.false_eq_true, if_false, MemTable.put_eq]
    exact try_freeze_ok _ _ _ hsafe

/-- C2: after a successful `delete k`, followed by any successful operations
none of which writes `k` (puts and deletes of other keys, and memtable
freezes), `get k` is absent — whatever earlier writes to `k` sit in the active
memtable, the frozen memtables, or the (never-consulted) file structures of
the arbitrary starting state `s`; and `get` never returns an empty-value
tombstone to its caller. -/
theorem delete_then_get_absent
    (s : LsmStorageInner) (fs : FS) (k : Bytes) (ops : List Op)
    (s1 : LsmStorageInner) (fs1 : FS) (s2 : LsmStorageInner) (fs2 : FS)
    (hdel : s.delete k fs = .ok (s1, fs1))
    (hops : ∀ op ∈ ops, Op.writesKey k op = false)
    (hrun : runOps s1 fs1 ops = .ok (s2, fs2)) :
    s2.get k = none ∧ ∀ (t : LsmStorageInner) (key : Bytes), t.get key ≠ some [] := by
  constructor
  · have h1 := delete_lookupRaw s fs k s1 fs1 hdel
    have h2 := runOps_lookupRaw ops s1 fs1 s2 fs2 k hrun hops
    rw [get_eq_lookupRaw, h2, h1]
    rfl
  · intro t key hcontra
    rw [get_eq_lookupRaw] at hcontra
    cases hl : t.lookupRaw key with
    | none => rw [hl] at hcontra; simp at hcontra
    | some v =>
      rw [hl] at hcontra
      cases v with
      | nil => simp at hcontra
      | cons a as => simp at hcontra

/-- C3: on a freshly created engine, a key never written (no operation of the
run writes it) reads as absent; and after a successful `put k v` followed by
successful operations that do not write `k`, `get k` returns exactly `v` (the
success of the `put` forces `k` and `v` non-empty). -/
theorem get_put_semantics :
    (∀ (opts : LsmStorageOptions) (dir : FsPath) (nid : Nat) (fs : FS)
        (ops : List Op) (s2 : LsmStorageInner) (fs2 : FS) (k : Bytes),
      (∀ op ∈ ops, Op.writesKey k op = false) →
      runOps { state := LsmStorageState.create opts, path := dir,
               next_sst_id := nid, options := opts } fs ops = .ok (s2, fs2) →
      s2.get k = none)
    ∧ (∀ (s : LsmStorageInner) (fs : FS) (k v : Bytes) (s1 : LsmStorageInner)
        (fs1 : FS) (ops : List Op) (s2 : LsmStorageInner) (fs2 : FS),
      s.put k v fs = .ok (s1, fs1) →
      (∀ op ∈ ops, Op.writesKey k op = false) →
      runOps s1 fs1 ops = .ok (s2, fs2) →
      s2.get k = some v) := by
  constructor
  · intro opts dir nid fs ops s2 fs2 k hops hrun
    have h2 := runOps_lookupRaw ops _ fs s2 fs2 k hrun hops
    rw [get_eq_lookupRaw, h2, lookupRaw_create]
    rfl
  · intro s fs k v s1 fs1 ops s2 fs2 hput hops hrun
    obtain ⟨h1, hk, hv⟩ := put_lookupRaw s fs k v s1 fs1 hput
    have h2 := runOps_lookupRaw ops s1 fs1 s2 fs2 k hrun hops
    rw [get_eq_lookupRaw, h2, h1]
    have hve : v.isEmpty = false := by
      cases v with
      | nil => exact absurd rfl hv
      | cons a as => rfl
    simp [hve, hv]

/-- C4: `try_freeze(estimated_size)` performs a freeze (the active memtable
moves to the front of the frozen list) exactly when the estimate reaches
`target_sst_size` and the re-checked size of the current active memtable is
still at least `target_sst_size`; in every other case the state and the file
system are returned unchanged. The WAL file a freeze would create is assumed
fresh — file creation is the only IO the call can perform. -/
theorem try_freeze_spec (s : LsmStorageInner) (est : Nat) (fs : FS)
    (hsafe : s.options.enable_wal = true →
      fs.lookup (s.path_of_wal s.next_sst_id) = none) :
    ∃ s2 fs2, s.try_freeze est fs = .ok (s2, fs2)
      ∧ ((s.options.target_sst_size ≤ est ∧
          s.options.target_sst_size ≤ s.state.memtable.approximate_size) →
          s2.state.imm_memtable = s.state.memtable :: s.state.imm_memtable)
      ∧ (¬(s.options.target_sst_size ≤ est ∧
          s.options.target_sst_size ≤ s.state.memtable.approximate_size) →
          s2 = s ∧ fs2 = fs) := by
  by_cases h1 : s.options.target_sst_size ≤ est
  · by_cases h2 : s.options.target_sst_size ≤ s.state.memtable.approximate_size
    · obtain ⟨s2, fs2, heq, -, -, -, himm, -, -, -, -, -, -⟩ := force_freeze_ok s fs hsafe
      refine ⟨s2, fs2, ?_, fun _ => himm, fun hc => absurd ⟨h1, h2⟩ hc⟩
      unfold LsmStorageInner.try_freeze
      rw [if_pos h1, if_pos h2]
      exact heq
    · refine ⟨s, fs, ?_, fun hc => absurd hc.2 h2, fun _ => ⟨rfl, rfl⟩⟩
      unfold LsmStorageInner.try_freeze
      rw [if_pos h1, if_neg h2]
  · refine ⟨s, fs, ?_, fun hc => absurd hc.1 h1, fun _ => ⟨rfl, rfl⟩⟩
    unfold LsmStorageInner.try_freeze
    rw [if_neg h1]

/-- C5: a freeze transition installs a state whose active memtable is a fresh
empty memtable (empty map, zero size) carrying the newly allocated id (the
counter advances by one), whose frozen list is the previous active memtable in
front of the previously frozen memtables unchanged, and whose `l0_sstable`,
`levels` and `sstables` are those of the previous state. The WAL file the
transition may create is assumed fresh. -/
theorem force_freeze_installs_fresh (s : LsmStorageInner) (fs : FS)
    (hsafe : s.options.enable_wal = true →
      fs.lookup (s.path_of_wal s.next_sst_id) = none) :
    ∃ s2 fs2, s.force_freeze_memtable fs = .ok (s2, fs2)
      ∧ s2.state.memtable.map = []
      ∧ s2.state.memtable.approximate_size = 0
      ∧ s2.state.memtable.id = s.next_sst_id
      ∧ s2.next_sst_id = s.next_sst_id + 1
      ∧ s2.state.imm_memtable = s.state.memtable :: s.state.imm_memtable
      ∧ s2.state.l0_sstable = s.state.l0_sstable
      ∧ s2.state.levels = s.state.levels
      ∧ s2.state.sstables = s.state.sstables := by
  obtain ⟨s2, fs2, heq, hmap, hid, hsize, himm, hl0, hlev, hsst, hnext, -, -⟩ :=
    force_freeze_ok s fs hsafe
  exact ⟨s2, fs2, heq, hmap, hsize, hid, hnext, himm, hl0, hlev, hsst⟩

/-- C9 (amended: additionally requires `target_sst_size > 0`; with a zero
target the claim is false, see the counterexample): any number of interleaved
`try_freeze` calls whose callers all observed an over-threshold size, starting
from an over-threshold active memtable, install exactly one new active
memtable — one id allocated, the old active memtable pushed once onto the
frozen list. The state lock serializes the re-check-and-freeze sections, so
the interleaved execution is their sequential composition in arrival order. -/
theorem try_freeze_race_single_freeze (s : LsmStorageInner) (fs : FS)
    (ests : List Nat)
    (hsafe : s.options.enable_wal = true →
      fs.lookup (s.path_of_wal s.next_sst_id) = none)
    (hpos : 0 < s.options.target_sst_size)
    (hne : ests ≠ [])
    (hall : ∀ e ∈ ests, s.options.target_sst_size ≤ e)
    (hsize : s.options.target_sst_size ≤ s.state.memtable.approximate_size) :
    ∃ s2 fs2, runTryFreezes s fs ests = .ok (s2, fs2)
      ∧ s2.state.memtable.map = []
      ∧ s2.state.memtable.id = s.next_sst_id
      ∧ s2.state.imm_memtable = s.state.memtable :: s.state.imm_memtable
      ∧ s2.next_sst_id = s.next_sst_id + 1 := by
  cases ests with
  | nil => exact absurd rfl hne
  | cons est rest =>
    obtain ⟨s1, fs1, heq, hmap, hid, hsize0, himm, -, -, -, hnext, hopts, -⟩ :=
      force_freeze_ok s fs hsafe
    have hfreeze : s.try_freeze est fs = .ok (s1, fs1) := by
      unfold LsmStorageInner.try_freeze
      rw [if_pos (hall est (List.mem_cons_self est rest)), if_pos hsize]
      exact heq
    have hsmall : s1.state.memtable.approximate_size < s1.options.target_sst_size := by
      rw [hsize0, hopts]
      exact hpos
    refine ⟨s1, fs1, ?_, hmap, hid, himm, hnext⟩
    simp only [runTryFreezes, hfreeze]
    exact runTryFreezes_of_small s1 fs1 rest hsmall

/-- Options with a zero freeze threshold. -/
def zeroTargetOptions : LsmStorageOptions :=
  { block_size := 4096
    target_sst_size := 0
    num_memttable_limit := 2
    compaction_options := .NoCompaction
    enable_wal := false
    serialized := false }

/-- An engine whose active memtable holds one entry, with `target_sst_size`
zero, so every caller's write has crossed the threshold. -/
def zeroTargetEngine : LsmStorageInner :=
  { state :=
      { memtable := { map := [([1], [2])], wal := none, id := 0, approximate_size := 2 }
        imm_memtable := []
        l0_sstable := []
        levels := []
        sstables := [] }
    path := []
    next_sst_id := 1
    options := zeroTargetOptions }

/-- C9 counterexample: with `target_sst_size = 0`, two interleaved `try_freeze`
callers who both crossed the threshold each pass the under-lock re-check (the
fresh memtable's size 0 is again ≥ 0), so TWO new active memtables are
installed — the frozen list grows by two and two ids are allocated — refuting
"exactly one new active memtable, never two" as stated. -/
theorem try_freeze_race_double_freeze :
    (runTryFreezes zeroTargetEngine [] [2, 2]).map
        (fun p => (p.1.state.imm_memtable.length, p.1.next_sst_id)) =
      .ok (2, 3) := rfl

/-- C10: the engine's `get` consults only the active and frozen memtables: if
a key is absent from the active memtable and from every frozen memtable, `get`
returns none regardless of the contents of the `l0_sstable` list, the `levels`
lists and the `sstables` map. -/
theorem get_ignores_sst_structures (s : LsmStorageInner) (k : Bytes)
    (ha : s.state.memtable.get k = none)
    (hi : ∀ m ∈ s.state.imm_memtable, m.get k = none) :
    ∀ (l0 : List Nat) (lv : List (Nat × List Nat)) (sst : List (Nat × Bytes)),
      ({ s with state :=
          { s.state with l0_sstable := l0, levels := lv, sstables := sst } } :
        LsmStorageInner).get k = none := by
  have hloop : ∀ (l : List MemTable), (∀ m ∈ l, m.get k = none) →
      getImmLoop l k = none := by
    intro l
    induction l with
    | nil => intro _; rfl
    | cons m rest ih =>
      intro h
      simp only [getImmLoop, h m (List.mem_cons_self m rest)]
      exact ih fun o ho => h o (List.mem_cons_of_mem _ ho)
  intro l0 lv sst
  unfold LsmStorageInner.get
  dsimp only
  simp only [ha]
  exact hloop s.state.imm_memtable hi

/-- An existing, well-formed WAL file holding one record (key 107 ↦ value 118). -/
def exampleWalFS : FS := [([0], [([107], [118])])]

/-- C6: what the code actually does at the claim's inputs. `recover_with_wal`
on an EXISTING well-formed log file fails (the source's `Wal::recover` opens
the file with `create_new(true)`, which errors whenever the file exists, and
never replays a record), while on a MISSING file it succeeds with an empty
map — the opposite of the claimed behavior in both directions. -/
theorem recover_with_wal_behavior :
    MemTable.recover_with_wal 1 [0] exampleWalFS = .error "Failed to open wal file"
    ∧ ∃ p, MemTable.recover_with_wal 1 [5] [] = .ok p ∧ p.1.map = [] :=
  ⟨rfl, ⟨_, rfl, rfl⟩⟩

/-- C7: the WAL round trip fails on the code. Creating a WAL-backed memtable
and putting one record leaves the record visible in memory but writes nothing
to the file (`Wal::put` is a no-op), and `recover_with_wal` on that same file
then fails outright (the file exists and `Wal::recover` reopens it with
`create_new(true)`) instead of reproducing the mapping. -/
theorem wal_round_trip_failure :
    ∃ m fs1 p,
      MemTable.create_with_wal 0 [0] [] = .ok (m, fs1)
      ∧ m.put [107] [118] fs1 = .ok p
      ∧ p.1.get [107] = some [118]
      ∧ p.2 = [([0], [])]
      ∧ MemTable.recover_with_wal 0 [0] p.2 = .error "Failed to open wal file" :=
  ⟨_, _, _, rfl, rfl, rfl, rfl, rfl⟩

/-- C8: `Wal::create(path)` succeeds (creating the file) when no file exists
at `path`, and fails when one already exists. -/
theorem wal_create_spec (path : FsPath) (fs : FS) :
    (fs.lookup path = none →
      Wal.create path fs = .ok (⟨path⟩, (path, []) :: fs))
    ∧ (∀ c, fs.lookup path = some c →
      Wal.create path fs = .error "Failed to open wal file") := by
  constructor
  · intro h
    unfold Wal.create
    rw [h]
  · intro c h
    unfold Wal.create
    rw [h]

/-! ### Concrete instances -/

/-- A plain configuration: 1 KiB freeze threshold, no WAL, no compaction. -/
def exampleOptions : LsmStorageOptions :=
  { block_size := 4096
    target_sst_size := 1024
    num_memttable_limit := 2
    compaction_options := .NoCompaction
    enable_wal := false
    serialized := false }

/-- A freshly opened engine with the plain configuration. -/
def exampleEngine : LsmStorageInner :=
  { state := LsmStorageState.create exampleOptions
    path := []
    next_sst_id := 1
    options := exampleOptions }

/-- The engine and file system right after `delete [3]` on the fresh engine. -/
def exampleAfterDel : LsmStorageInner × FS :=
  match exampleEngine.delete [3] [] with
  | .ok p => p
  | .error _ => (exampleEngine, [])

/-- The engine and file system right after `put [3] [7]` on the fresh engine. -/
def exampleAfterPut : LsmStorageInner × FS :=
  match exampleEngine.put [3] [7] [] with
  | .ok p => p
  | .error _ => (exampleEngine, [])

/-- An engine whose active memtable sits exactly at the freeze threshold. -/
def thresholdEngine : LsmStorageInner :=
  { state :=
      { memtable := { map := [([1], [2])], wal := none, id := 0, approximate_size := 1024 }
        imm_memtable := []
        l0_sstable := []
        levels := []
        sstables := [] }
    path := []
    next_sst_id := 1
    options := exampleOptions }

/-- Witness for C1: on the concrete engine, an empty key or value makes `put`
fail, an empty key makes `delete` fail, and non-empty arguments succeed. -/
theorem put_delete_empty_validation_witness :
    (∃ msg, exampleEngine.put [] [7] [] = .error msg)
    ∧ (∃ msg, exampleEngine.put [3] [] [] = .error msg)
    ∧ (∃ msg, exampleEngine.delete [] [] = .error msg)
    ∧ (∃ r, exampleEngine.put [3] [7] [] = .ok r)
    ∧ (∃ r, exampleEngine.delete [3] [] = .ok r) :=
  ⟨(put_delete_empty_validation exampleEngine [] [] [7] (by decide)).1 (Or.inl rfl),
   (put_delete_empty_validation exampleEngine [] [3] [] (by decide)).1 (Or.inr rfl),
   (put_delete_empty_validation exampleEngine [] [] [7] (by decide)).2.1 rfl,
   (put_delete_empty_validation exampleEngine [] [3] [7] (by decide)).2.2.1
     (by decide) (by decide),
   (put_delete_empty_validation exampleEngine [] [3] [7] (by decide)).2.2.2 (by decide)⟩

/-- Witness for C2: deleting key `[3]` on the concrete engine makes `get [3]`
absent. -/
theorem delete_then_get_absent_witness :
    exampleAfterDel.1.get [3] = none
    ∧ ∀ (t : LsmStorageInner) (key : Bytes), t.get key ≠ some [] :=
  delete_then_get_absent exampleEngine [] [3] [] exampleAfterDel.1 exampleAfterDel.2
    exampleAfterDel.1 exampleAfterDel.2 rfl (by simp) rfl

/-- Witness for C3: on the fresh concrete engine the never-written key `[9]`
reads as absent, and after `put [3] [7]` the key `[3]` reads back `[7]`. -/
theorem get_put_semantics_witness :
    exampleEngine.get [9] = none ∧ exampleAfterPut.1.get [3] = some [7] :=
  ⟨get_put_semantics.1 exampleOptions [] 1 [] [] exampleEngine [] [9] (by simp) rfl,
   get_put_semantics.2 exampleEngine [] [3] [7] exampleAfterPut.1 exampleAfterPut.2
     [] exampleAfterPut.1 exampleAfterPut.2 rfl (by simp) rfl⟩

/-- Witness for C4 at a concrete input (estimate 0, below the threshold). -/
theorem try_freeze_spec_witness :
    ∃ s2 fs2, exampleEngine.try_freeze 0 [] = .ok (s2, fs2)
      ∧ ((exampleEngine.options.target_sst_size ≤ 0 ∧
          exampleEngine.options.target_sst_size ≤
            exampleEngine.state.memtable.approximate_size) →
          s2.state.imm_memtable =
            exampleEngine.state.memtable :: exampleEngine.state.imm_memtable)
      ∧ (¬(exampleEngine.options.target_sst_size ≤ 0 ∧
          exampleEngine.options.target_sst_size ≤
            exampleEngine.state.memtable.approximate_size) →
          s2 = exampleEngine ∧ fs2 = []) :=
  try_freeze_spec exampleEngine 0 [] (by decide)

/-- Witness for C5: forcing a freeze of the concrete engine. -/
theorem force_freeze_installs_fresh_witness :
    ∃ s2 fs2, exampleEngine.force_freeze_memtable [] = .ok (s2, fs2)
      ∧ s2.state.memtable.map = []
      ∧ s2.state.memtable.approximate_size = 0
      ∧ s2.state.memtable.id = exampleEngine.next_sst_id
      ∧ s2.next_sst_id = exampleEngine.next_sst_id + 1
      ∧ s2.state.imm_memtable =
          exampleEngine.state.memtable :: exampleEngine.state.imm_memtable
      ∧ s2.state.l0_sstable = exampleEngine.state.l0_sstable
      ∧ s2.state.levels = exampleEngine.state.levels
      ∧ s2.state.sstables = exampleEngine.state.sstables :=
  force_freeze_installs_fresh exampleEngine [] (by decide)

/-- Witness for C8: creating the WAL file at path `[0]` succeeds on an empty
file system and fails once the file exists. -/
theorem wal_create_spec_witness :
    Wal.create [0] [] = .ok (⟨[0]⟩, [([0], [])])
    ∧ Wal.create [0] [([0], [])] = .error "Failed to open wal file" :=
  ⟨(wal_create_spec [0] []).1 rfl, (wal_create_spec [0] [([0], [])]).2 [] rfl⟩

/-- Witness for C9 (amended): two racing `try_freeze` callers on the
at-threshold engine with a positive target install exactly one new active
memtable. -/
theorem try_freeze_race_single_freeze_witness :
    ∃ s2 fs2, runTryFreezes thresholdEngine [] [1024, 1024] = .ok (s2, fs2)
      ∧ s2.state.memtable.map = []
      ∧ s2.state.memtable.id = thresholdEngine.next_sst_id
      ∧ s2.state.imm_memtable =
          thresholdEngine.state.memtable :: thresholdEngine.state.imm_memtable
      ∧ s2.next_sst_id = thresholdEngine.next_sst_id + 1 :=
  try_freeze_race_single_freeze thresholdEngine [] [1024, 1024] (by decide)
    (by decide) (by decide) (by decide) (by decide)

/-- Witness for C10: populating the file structures of the concrete engine
does not make the absent key `[3]` visible to `get`. -/
theorem get_ignores_sst_structures_witness :
    ({ exampleEngine with state :=
        { exampleEngine.state with
            l0_sstable := [5]
            levels := [(1, [5])]
            sstables := [(5, [9, 9])] } } : LsmStorageInner).get [3] = none :=
  get_ignores_sst_structures exampleEngine [3] rfl (by decide) [5] [(1, [5])] [(5, [9, 9])]

end LsmTree
